import Mathlib

/-!
# ML_NIDS — Detection Supervisor & Analytics Engine: verification development

Shallow embedding of the server-side supervisor (`monitorController`:
`startMonitoring` / `stopMonitoring` / `getStatus`), the settings
validation, and the analytics query functions of
`statsController.js` / `alertController.js`, together with theorems that
settle the specification claims.

Conventions of the embedding:
* JavaScript numbers are embedded as exact rationals `ℚ` (timestamps as
  `ℕ` milliseconds); `Number.prototype.toFixed(2)` followed by unary `+`
  is embedded as exact round-to-two-decimals `round2`.
* `Math.max()` applied to an empty argument list yields `-Infinity`; the
  result type of such a maximum is therefore `WithBot ℚ`, with `⊥`
  playing the role of `-Infinity`.
* Nullable / possibly-absent JS values are `Option`s; `x ?? d` is
  `Option.getD`, and a Mongo document field that may be missing is an
  `Option` field.
* A `modelProbabilities` map is an association list `List (String × ℚ)`
  in object-key insertion order.
-/

unseal Rat.add Rat.mul Rat.inv Rat.sub Rat.ofScientific

/- ====================================================================
   SUPERVISOR: data model (Settings document and argument vector)
   ==================================================================== -/

/-- Embedding of `String.prototype.trim` as used by the interface
validation: strip leading and trailing whitespace, structurally over
the character list. -/
def jsTrim (s : String) : String :=
  ⟨((s.data.dropWhile Char.isWhitespace).reverse.dropWhile Char.isWhitespace).reverse⟩

/-- A persisted `Settings` document as consumed by `startMonitoring`
(fields that the controller reads; every field may be absent on an
arbitrary document, mirroring the dynamic JS object). -/
structure SettingsDoc where
  iface : Option String        -- `settings.interface`
  models : Option (List String)
  threshold : Option ℚ
  voteK : Option ℚ
  flowTimeout : Option ℚ
deriving DecidableEq, Repr

/-- The resolved detector argument vector (the `args` array built by
`startMonitoring`, with numeric `String(x)` arguments kept as their
numeric values — `String` on numbers is injective). -/
structure ArgsSpec where
  iface : String
  modelsArg : String
  threshold : ℚ
  voteK : ℚ
  flowTimeout : ℚ
  runMode : String
deriving DecidableEq, Repr

/-- `!settings.interface || settings.interface.trim() === ""`. -/
def ifaceInvalid : Option String → Bool
  | none => true
  | some s => s == "" || jsTrim s == ""

/-- The argument vector `startMonitoring` builds from a settings
document: `settings.models?.length ? settings.models.join(",") : "all"`,
`settings.threshold ?? 0.5`, `settings.voteK ?? 3`,
`settings.flowTimeout ?? 10`, and the fixed `--run_mode service`. -/
def buildArgs (s : SettingsDoc) : ArgsSpec where
  iface := s.iface.getD ""
  modelsArg :=
    match s.models with
    | some ms => if ms.length ≠ 0 then String.intercalate "," ms else "all"
    | none => "all"
  threshold := s.threshold.getD (1/2)
  voteK := s.voteK.getD 3
  flowTimeout := s.flowTimeout.getD 10
  runMode := "service"

/- ====================================================================
   SUPERVISOR: sequential semantics of start/stop/status
   ==================================================================== -/

/-- Outcome of a `startMonitoring` call: either one of the 400 responses
(with the human-readable message from the source) or a successful spawn
carrying the argument vector handed to `spawn("python", args)`. -/
inductive StartOutcome where
  | conflict400 (msg : String)
  | error400 (msg : String)
  | started (args : ArgsSpec)
deriving DecidableEq, Repr

/-- `startMonitoring`, run to completion with the settings fetch
resolved to `settings` (`Settings.findOne().sort({updatedAt:-1})`).
`handle` is the module-level `monitorProcess` (`some pid` when a child
handle is installed); `pid` is the pid the OS would assign to a spawned
child. Returns the new handle and the response. -/
def startMonitoring (handle : Option ℕ) (pid : ℕ) (settings : Option SettingsDoc) :
    Option ℕ × StartOutcome :=
  match handle with
  | some p => (some p, .conflict400 "Monitoring already running")
  | none =>
    match settings with
    | none => (none, .error400 "No detection settings found. Configure settings first.")
    | some s =>
      if ifaceInvalid s.iface then
        (none, .error400 "Network interface (iface) is required")
      else
        (some pid, .started (buildArgs s))

/-- Outcome of a `stopMonitoring` call. -/
inductive StopOutcome where
  | conflict400 (msg : String)
  | stopped (msg : String)
deriving DecidableEq, Repr

/-- `stopMonitoring`: returns the new handle, the response, and the
list of pids that were sent `SIGINT`. -/
def stopMonitoring (handle : Option ℕ) : Option ℕ × StopOutcome × List ℕ :=
  match handle with
  | none => (none, .conflict400 "Monitoring is not running", [])
  | some p => (none, .stopped "Monitoring stopped", [p])

/-- `getStatus`: `{ running: Boolean(monitorProcess) }`. -/
def getStatus (handle : Option ℕ) : Bool :=
  handle.isSome

/- ====================================================================
   SUPERVISOR: interleaved semantics (the check / await / set window)
   ==================================================================== -/

/-- Supervisor-side world state for interleaving arguments: the shared
`monitorProcess` handle, the set of spawned children still running, and
the next fresh pid. -/
structure SupSt where
  handle : Option ℕ
  live : List ℕ
  nextPid : ℕ
deriving DecidableEq, Repr

/-- Progress of one in-flight `startMonitoring` call: before the
`if (monitorProcess)` check, suspended at `await Settings.findOne()`,
or finished (recording whether this call spawned a child). -/
inductive StartPhase where
  | atCheck
  | afterAwait
  | finished (spawned : Bool)
deriving DecidableEq, Repr

/-- First synchronous segment of `startMonitoring`: the
`if (monitorProcess)` null-handle check, after which the call suspends
at `await Settings.findOne()`. No state is written. -/
def stepCheck (s : SupSt) (ph : StartPhase) : SupSt × StartPhase :=
  match ph with
  | .atCheck => if s.handle.isSome then (s, .finished false) else (s, .afterAwait)
  | _ => (s, ph)

/-- Second synchronous segment of `startMonitoring`: the code after the
`await` (settings / interface validation, then `spawn` and the handle
assignment). The source re-checks nothing about `monitorProcess` here. -/
def stepResume (settings : Option SettingsDoc) (s : SupSt) (ph : StartPhase) :
    SupSt × StartPhase :=
  match ph with
  | .afterAwait =>
    match settings with
    | none => (s, .finished false)
    | some cfg =>
      if ifaceInvalid cfg.iface then (s, .finished false)
      else (⟨some s.nextPid, s.live ++ [s.nextPid], s.nextPid + 1⟩, .finished true)
  | _ => (s, ph)

/-- A valid settings document (the end-to-end example of the spec). -/
def validSettings : SettingsDoc :=
  ⟨some "eth0", some ["rf", "svm"], some (1/2), some 1, some 10⟩

/-- The racy interleaving: two `start()` calls both execute their
null-handle check before either resumes from the settings fetch. -/
def raceTrace : SupSt × StartPhase × StartPhase :=
  let s0 : SupSt := ⟨none, [], 0⟩
  let (s1, p1) := stepCheck s0 .atCheck
  let (s2, p2) := stepCheck s1 .atCheck
  let (s3, p1') := stepResume (some validSettings) s2 p1
  let (s4, p2') := stepResume (some validSettings) s3 p2
  (s4, p1', p2')

/- ====================================================================
   SUPERVISOR: exit-event semantics (the `close` handler)
   ==================================================================== -/

/-- A successful `start()` path applied atomically (used to build
interleavings in which the validation passes): spawns a fresh child and
installs its handle; a no-op conflict when a handle exists. -/
def startOkOp (s : SupSt) : SupSt :=
  if s.handle.isSome then s
  else ⟨some s.nextPid, s.live ++ [s.nextPid], s.nextPid + 1⟩

/-- `stop()` applied to the world: clears the handle and sends `SIGINT`;
the child stays in `live` until its exit event is processed. -/
def stopOp (s : SupSt) : SupSt :=
  match s.handle with
  | none => s
  | some _ => { s with handle := none }

/-- The `close` handler of a spawned child with pid `p` firing: the
child is no longer running, and the handler executes
`monitorProcess = null` unconditionally — it does not check that the
handle still refers to `p`. -/
def closeEvent (p : ℕ) (s : SupSt) : SupSt :=
  ⟨none, s.live.erase p, s.nextPid⟩

/- ====================================================================
   ANALYTICS: shared numeric helper
   ==================================================================== -/

/-- `+(x).toFixed(2)`: round to two decimal places (exact, over `ℚ`). -/
def round2 (q : ℚ) : ℚ :=
  (round (q * 100) : ℤ) / 100

/- ====================================================================
   ANALYTICS: confidence bands (`getConfidenceBands`)
   ==================================================================== -/

/-- The five fixed bands of `getConfidenceBands`:
label, `min`, `max`. -/
def bands : List (String × ℚ × ℚ) :=
  [("0–20%", 0, 1/5), ("20–40%", 1/5, 2/5), ("40–60%", 2/5, 3/5),
   ("60–80%", 3/5, 4/5), ("80–100%", 4/5, 1)]

/-- `getConfidenceBands` over the stored confidences: for each band in
order, `countDocuments({ confidence: { $gte: min, $lt: max } })`. -/
def getConfidenceBands (confs : List ℚ) : List (String × ℕ) :=
  bands.map (fun b => (b.1, confs.countP (fun c => b.2.1 ≤ c ∧ c < b.2.2)))

/- ====================================================================
   ANALYTICS: traffic timeline (`getTrafficTimeline`)
   ==================================================================== -/

/-- The `config[range] || config["24h"]` table: window and bucket size
in milliseconds. -/
def timelineConfig (range : String) : ℕ × ℕ :=
  if range = "1h" then (60 * 60 * 1000, 60 * 1000)
  else if range = "2h" then (2 * 60 * 60 * 1000, 2 * 60 * 1000)
  else if range = "24h" then (24 * 60 * 60 * 1000, 5 * 60 * 1000)
  else if range = "7d" then (7 * 24 * 60 * 60 * 1000, 60 * 60 * 1000)
  else if range = "30d" then (30 * 24 * 60 * 60 * 1000, 6 * 60 * 60 * 1000)
  else if range = "1y" then (365 * 24 * 60 * 60 * 1000, 24 * 60 * 60 * 1000)
  else (24 * 60 * 60 * 1000, 5 * 60 * 1000)

/-- The recognised `range` keys of the `config` object. -/
def knownRanges : List String := ["1h", "2h", "24h", "7d", "30d", "1y"]

/-- `getTrafficTimeline` over event timestamps (ms since epoch):
`$match createdAt ≥ now − window`, `$project` each timestamp to
`t − (t mod bucket)`, `$group` by bucket with `$sum 1`, `$sort` by
bucket ascending. -/
def getTrafficTimeline (range : String) (now : ℕ) (events : List ℕ) :
    List (ℕ × ℕ) :=
  let cfg := timelineConfig range
  let starts := (events.filter (fun t => now - cfg.1 ≤ t)).map (fun t => t - t % cfg.2)
  ((starts.dedup).insertionSort (· ≤ ·)).map (fun b => (b, starts.count b))

/- ====================================================================
   ANALYTICS: model agreement matrix (`getModelAgreementMatrix`)
   ==================================================================== -/

/-- For an ordered model pair, the probability pairs over the events on
which both models reported a value (`p?.[m1] != null && p?.[m2] != null`). -/
def agreementPairs (events : List (List (String × ℚ))) (m1 m2 : String) :
    List (ℚ × ℚ) :=
  events.filterMap (fun e =>
    match e.lookup m1, e.lookup m2 with
    | some p1, some p2 => some (p1, p2)
    | _, _ => none)

/-- Binarisation at the fixed constant: `p >= 0.5 ? "ATTACK" : "BENIGN"`. -/
def binAttack (p : ℚ) : Bool :=
  1/2 ≤ p

/-- One entry of the agreement matrix:
`total === 0 ? 0 : +((agree / total) * 100).toFixed(2)`. -/
def agreementEntry (events : List (List (String × ℚ))) (m1 m2 : String) : ℚ :=
  let pairs := agreementPairs events m1 m2
  let total := pairs.length
  let agree := (pairs.filter (fun pr => binAttack pr.1 == binAttack pr.2)).length
  if total = 0 then 0 else round2 ((agree : ℚ) / (total : ℚ) * 100)

/- ====================================================================
   ANALYTICS: model dominance frequency (`getModelDominanceFrequency`)
   ==================================================================== -/

/-- One step of the `getModelDominanceFrequency` loop body:
`if (conf > maxConfidence) { maxConfidence = conf; dominantModel = model }`
— strictly greater, so ties keep the earlier model. -/
def domStep (acc : Option String × ℚ) (kv : String × ℚ) : Option String × ℚ :=
  if acc.2 < kv.2 then (some kv.1, kv.2) else acc

/-- The per-event fold of `getModelDominanceFrequency`: start from
`dominantModel = null`, `maxConfidence = -1` and fold the map's entries
in encounter order. -/
def dominantOf (e : List (String × ℚ)) : Option String × ℚ :=
  e.foldl domStep (none, -1)

/-- The winner rule as the specification states it (reference
definition from the claim's words): the winning model is the one with
the maximum probability, ties resolved in favor of the model
encountered first — i.e. the first entry whose probability is ≥ every
probability in the map. -/
def specDominant (e : List (String × ℚ)) : Option String :=
  (e.find? (fun kv => e.all (fun z => z.2 ≤ kv.2))).map Prod.fst

/-- Winning-model stream: the store filtered by
`modelProbabilities: { $exists: true, $ne: {} }`, each qualifying event
mapped to its dominant model (events whose fold yields `null` are
dropped, contributing to neither count nor total). -/
def dominanceWinners (events : List (List (String × ℚ))) : List String :=
  (events.filter (fun e => e ≠ [])).filterMap (fun e => (dominantOf e).1)

/-- JS object key order: first-insertion order of the distinct winners
(`dominanceCount`'s key set). -/
def jsKeys (w : List String) : List String :=
  w.foldl (fun acc m => if m ∈ acc then acc else acc ++ [m]) []

/-- `getModelDominanceFrequency`: one `{model, percent}` row per key of
`dominanceCount`, `percent = +((count / total) * 100).toFixed(2)`. -/
def dominanceResult (events : List (List (String × ℚ))) : List (String × ℚ) :=
  let w := dominanceWinners events
  (jsKeys w).map (fun m => (m, round2 ((w.count m : ℚ) / (w.length : ℚ) * 100)))

/- ====================================================================
   ANALYTICS: ensemble vs best model (`getEnsembleVsBestModel`)
   ==================================================================== -/

/-- A stored detection event as read by `getEnsembleVsBestModel`
(`confidence`, `modelProbabilities`, `createdAt`); `modelProbabilities`
is `none` when the field is absent from the document. -/
structure EvEvent where
  createdAt : ℕ
  confidence : ℚ
  modelProbabilities : Option (List (String × ℚ))
deriving DecidableEq, Repr

/-- `Math.max(...values)`: `⊥` (JS `-Infinity`) on the empty list. -/
def jsMax (l : List ℚ) : WithBot ℚ :=
  l.foldr (fun x acc => max (↑x) acc) ⊥

/-- `Math.max(...Object.values(alert.modelProbabilities || [0]))`: an
absent map falls back to the array `[0]` (values `[0]`, max `0`); a
present map — `{}` included, since any object is truthy — contributes
its own values. -/
def bestOf (probs : Option (List (String × ℚ))) : WithBot ℚ :=
  match probs with
  | none => jsMax [0]
  | some l => jsMax (l.map Prod.snd)

/-- The Mongo query of `getEnsembleVsBestModel`:
`find({ modelProbabilities: { $exists: true } }).sort({ createdAt: 1 })`
— ascending `createdAt` — before the `limit(50)`. -/
def ensembleSorted (store : List EvEvent) : List EvEvent :=
  (store.filter (fun e => e.modelProbabilities.isSome)).insertionSort
    (fun a b => a.createdAt ≤ b.createdAt)

/-- One output row: 1-based `index`,
`+(alert.confidence * 100).toFixed(2)`, and the best-model value scaled
and rounded the same way (`⊥` stays `-Infinity`). -/
def ensembleRow (i : ℕ) (e : EvEvent) : ℕ × ℚ × WithBot ℚ :=
  (i + 1, round2 (e.confidence * 100),
    (bestOf e.modelProbabilities).map (fun q => round2 (q * 100)))

/-- `getEnsembleVsBestModel`: the first 50 events of the ascending
`createdAt` order, mapped to indexed rows. -/
def getEnsembleVsBestModel (store : List EvEvent) : List (ℕ × ℚ × WithBot ℚ) :=
  ((ensembleSorted store).take 50).enum.map (fun p => ensembleRow p.1 p.2)

/-- What the specification's words describe for the same endpoint: the
most recent 50 events in ascending chronological order, pairing each
event's confidence with the maximum across `modelProbabilities`, `0`
when the map is empty. Stated for comparison with
`getEnsembleVsBestModel`. -/
def specEnsembleVsBest (store : List EvEvent) : List (ℕ × ℚ × WithBot ℚ) :=
  let sorted := ensembleSorted store
  let recent := sorted.drop (sorted.length - 50)
  recent.enum.map (fun p =>
    (p.1 + 1, round2 (p.2.confidence * 100),
      match p.2.modelProbabilities with
      | some (kv :: tl) => (jsMax ((kv :: tl).map Prod.snd)).map (fun q => round2 (q * 100))
      | _ => (↑(round2 ((0 : ℚ) * 100)) : WithBot ℚ)))

/- ====================================================================
   CLAIM THEOREMS: supervisor
   ==================================================================== -/

/-- C1 (evaluation at the failing interleaving): with valid Settings
persisted and no child running, the interleaving in which two `start()`
calls both execute the `if (monitorProcess)` null-handle check before
either resumes from `await Settings.findOne()` makes BOTH calls spawn a
child: two children are live at the end, refuting the at-most-one-live-
child invariant the check/set sequence is claimed to keep atomically. -/
theorem startMonitoring_check_await_race :
    (raceTrace.1.live = [0, 1] ∧ raceTrace.1.live.length = 2) ∧
      raceTrace.2.1 = .finished true ∧ raceTrace.2.2 = .finished true ∧
      raceTrace.1.handle = some 1 := by
  decide

/-- C9: `stop()` with no process handle returns the 400 Conflict
response, leaves the handle absent and sends no signal; `start()` while
a handle exists returns the 400 Conflict response, does not spawn
(the outcome carries no argument vector) and leaves the handle as it
was. -/
theorem stop_and_start_conflict_leave_state_unchanged :
    (stopMonitoring none = (none, .conflict400 "Monitoring is not running", [])) ∧
      (∀ (p pid : ℕ) (settings : Option SettingsDoc),
        startMonitoring (some p) pid settings =
          (some p, .conflict400 "Monitoring already running")) := by
  exact ⟨rfl, fun _ _ _ => rfl⟩

/-- C2 counterexample: a persisted Settings document with a non-empty
interface but an EMPTY `models` list does not make `start()` fail — the
code falls back to `--models all` and spawns, refuting the claim that
an empty models list yields a ValidationError before any spawn. -/
theorem start_empty_models_spawns :
    startMonitoring none 0 (some ⟨some "eth0", some [], none, none, none⟩) =
      (some 0, .started ⟨"eth0", "all", 1/2, 3, 10, "service"⟩) := by
  decide

/-- C2 (amended): `start()` fails with the 400 ValidationError response
before any spawn when the persisted Settings record is absent or when
its interface is empty (or blank); in both cases no handle is installed
and no process is spawned. (An empty `models` list does not fail: it
falls back to `--models all`.) -/
theorem start_validation_failures_never_spawn (pid : ℕ) :
    (startMonitoring none pid none =
      (none, .error400 "No detection settings found. Configure settings first.")) ∧
      (∀ s : SettingsDoc, ifaceInvalid s.iface = true →
        startMonitoring none pid (some s) =
          (none, .error400 "Network interface (iface) is required")) := by
  refine ⟨rfl, fun s h => ?_⟩
  simp [startMonitoring, h]

/-- C2 witness: the amended theorem applied at a concrete pid and a
concrete empty-interface document. -/
theorem start_validation_failures_never_spawn_witness :
    startMonitoring none 7 (some ⟨some "", some ["rf"], none, none, none⟩) =
      (none, .error400 "Network interface (iface) is required") :=
  (start_validation_failures_never_spawn 7).2 ⟨some "", some ["rf"], none, none, none⟩ (by decide)

/-- C3 counterexample: with `models = ["rf"]` and `voteK = 5` the
argument vector carries vote count 5, strictly more than the number of
configured models (1) — the `--vote` argument is not clamped. -/
theorem buildArgs_voteK_not_clamped :
    (buildArgs ⟨some "eth0", some ["rf"], none, some 5, none⟩).voteK = 5 ∧
      ¬((buildArgs ⟨some "eth0", some ["rf"], none, some 5, none⟩).voteK ≤
        (([ "rf" ] : List String).length : ℚ)) := by
  decide

/-- C3 (amended): resolving Settings into the argument vector applies
the defaults `threshold = 0.5`, `voteK = 3`, `flowTimeout = 10` for
missing fields, and passes a present `voteK` through verbatim — it is
NOT clamped to the number of configured models. -/
theorem buildArgs_defaults_and_passthrough (s : SettingsDoc) :
    (s.threshold = none → (buildArgs s).threshold = 1/2) ∧
      (s.voteK = none → (buildArgs s).voteK = 3) ∧
      (s.flowTimeout = none → (buildArgs s).flowTimeout = 10) ∧
      (∀ v : ℚ, s.voteK = some v → (buildArgs s).voteK = v) ∧
      (∀ q : ℚ, s.threshold = some q → (buildArgs s).threshold = q) ∧
      (∀ q : ℚ, s.flowTimeout = some q → (buildArgs s).flowTimeout = q) := by
  refine ⟨fun h => ?_, fun h => ?_, fun h => ?_, fun v h => ?_, fun q h => ?_, fun q h => ?_⟩ <;>
    simp [buildArgs, h]

/-- C3 witness: the amended theorem applied at a document with missing
threshold/flowTimeout and `voteK = 5`. -/
theorem buildArgs_defaults_and_passthrough_witness :
    (buildArgs ⟨some "eth0", some ["rf"], none, some 5, none⟩).threshold = 1/2 ∧
      (buildArgs ⟨some "eth0", some ["rf"], none, some 5, none⟩).voteK = 5 :=
  ⟨(buildArgs_defaults_and_passthrough _).1 rfl,
    (buildArgs_defaults_and_passthrough _).2.2.2.1 5 rfl⟩

/-- C10: the child's `close` handler nulls the shared handle without
checking that it still refers to the exiting child, so after ANY
spawned child's exit event `status()` reports `running: false` — in
particular in the interleaving where a `stop()` already cleared the
handle and a new `start()` installed a handle for a different child
that is still live when the old child's exit event fires. -/
theorem closeEvent_clears_status_unconditionally :
    (∀ (p : ℕ) (s : SupSt), getStatus (closeEvent p s).handle = false) ∧
      (let s3 := startOkOp (stopOp (startOkOp ⟨none, [], 0⟩));
        getStatus s3.handle = true ∧ s3.handle = some 1 ∧ s3.live = [0, 1] ∧
          (closeEvent 0 s3).live = [1] ∧ getStatus (closeEvent 0 s3).handle = false) := by
  exact ⟨fun _ _ => rfl, by decide⟩

/-- C5 (evaluation at the failing input): every band of
`getConfidenceBands` uses a strict `$lt` upper bound, the last band
included, so an event with confidence exactly `1.0` is counted in NO
band — all five counts are 0 and their sum misses the event — while an
event with confidence exactly `0.2` does land in the second band, and
the five labels always appear in order. -/
theorem confidenceBands_miss_confidence_one :
    getConfidenceBands [(1 : ℚ)] =
      [("0–20%", 0), ("20–40%", 0), ("40–60%", 0), ("60–80%", 0), ("80–100%", 0)] ∧
      ((getConfidenceBands [(1 : ℚ)]).map Prod.snd).sum = 0 ∧
      getConfidenceBands [(1/5 : ℚ)] =
        [("0–20%", 0), ("20–40%", 1), ("40–60%", 0), ("60–80%", 0), ("80–100%", 0)] := by
  decide

/-- C4: `getTrafficTimeline` maps each known range to its
(window, bucket) pair with any unknown range treated as `24h`; it keeps
exactly the events with timestamp ≥ now − window, assigns each to the
bucket `t − (t mod bucket)`, and returns exactly the buckets containing
at least one kept event — each with its positive count, sorted strictly
ascending by bucket start, no zero-count buckets inserted. -/
theorem getTrafficTimeline_spec (range : String) (now : ℕ) (events : List ℕ) :
    timelineConfig "1h" = (3600000, 60000) ∧
    timelineConfig "2h" = (7200000, 120000) ∧
    timelineConfig "24h" = (86400000, 300000) ∧
    timelineConfig "7d" = (604800000, 3600000) ∧
    timelineConfig "30d" = (2592000000, 21600000) ∧
    timelineConfig "1y" = (31536000000, 86400000) ∧
    (range ∉ knownRanges → timelineConfig range = timelineConfig "24h") ∧
    List.Sorted (· < ·) ((getTrafficTimeline range now events).map Prod.fst) ∧
    (∀ b c : ℕ, (b, c) ∈ getTrafficTimeline range now events ↔
      (0 < c ∧ c = ((events.filter (fun t => now - (timelineConfig range).1 ≤ t)).map
          (fun t => t - t % (timelineConfig range).2)).count b)) := by
  refine ⟨by decide, by decide, by decide, by decide, by decide, by decide, ?_, ?_, ?_⟩
  · intro h
    simp only [knownRanges, List.mem_cons, List.not_mem_nil, or_false, not_or] at h
    obtain ⟨h1, h2, h3, h4, h5, h6⟩ := h
    simp [timelineConfig, h1, h2, h3, h4, h5, h6]
  · have hmap : (getTrafficTimeline range now events).map Prod.fst =
        (((events.filter (fun t => now - (timelineConfig range).1 ≤ t)).map
          (fun t => t - t % (timelineConfig range).2)).dedup).insertionSort (· ≤ ·) := by
      simp [getTrafficTimeline, List.map_map, Function.comp_def]
    rw [hmap]
    set starts := ((events.filter (fun t => now - (timelineConfig range).1 ≤ t)).map
      (fun t => t - t % (timelineConfig range).2)) with hs
    have hsorted : List.Sorted (· ≤ ·) (starts.dedup.insertionSort (· ≤ ·)) :=
      List.sorted_insertionSort _ _
    have hnodup : (starts.dedup.insertionSort (· ≤ ·)).Nodup :=
      (List.perm_insertionSort _ _).nodup_iff.mpr (List.nodup_dedup _)
    exact hsorted.lt_of_le hnodup
  · intro b c
    set starts := ((events.filter (fun t => now - (timelineConfig range).1 ≤ t)).map
      (fun t => t - t % (timelineConfig range).2)) with hs
    have hout : getTrafficTimeline range now events =
        (starts.dedup.insertionSort (· ≤ ·)).map (fun x => (x, starts.count x)) := rfl
    rw [hout]
    constructor
    · rintro hmem
      rw [List.mem_map] at hmem
      obtain ⟨a, ha, heq⟩ := hmem
      rw [Prod.mk.injEq] at heq
      obtain ⟨rfl, rfl⟩ := heq
      have hb : a ∈ starts := by
        have := (List.perm_insertionSort (· ≤ ·) starts.dedup).mem_iff.mp ha
        exact List.mem_dedup.mp this
      exact ⟨List.count_pos_iff.mpr hb, rfl⟩
    · rintro ⟨hpos, rfl⟩
      have hb : b ∈ starts := List.count_pos_iff.mp hpos
      refine List.mem_map.mpr ⟨b, ?_, rfl⟩
      exact (List.perm_insertionSort (· ≤ ·) starts.dedup).mem_iff.mpr (List.mem_dedup.mpr hb)

/-- C4 witness: the theorem applied at an unknown range and a concrete
store, giving the default 24h configuration. -/
theorem getTrafficTimeline_spec_witness :
    ("6h" ∉ knownRanges) ∧ timelineConfig "6h" = timelineConfig "24h" :=
  ⟨by decide, (getTrafficTimeline_spec "6h" 0 []).2.2.2.2.2.2.1 (by decide)⟩

/-- Every pair collected for the diagonal entry `(m, m)` pairs a value
with itself. -/
lemma agreementPairs_diag {events : List (List (String × ℚ))} {m : String}
    {pr : ℚ × ℚ} (hpr : pr ∈ agreementPairs events m m) : pr.1 = pr.2 := by
  simp only [agreementPairs, List.mem_filterMap] at hpr
  obtain ⟨e, _, hf⟩ := hpr
  cases hl : e.lookup m <;> simp [hl] at hf
  exact hf ▸ rfl

/-- Swapping the model pair swaps each collected probability pair. -/
lemma agreementPairs_swap (events : List (List (String × ℚ))) (m1 m2 : String) :
    agreementPairs events m1 m2 = (agreementPairs events m2 m1).map Prod.swap := by
  induction events with
  | nil => rfl
  | cons e es ih =>
    simp only [agreementPairs, List.filterMap_cons] at ih ⊢
    cases h1 : e.lookup m1 <;> cases h2 : e.lookup m2 <;> simp [h1, h2, ih]

/-- C6: in the agreement matrix, the diagonal entry of any model that
reported a value on at least one event is exactly 100, and the matrix
is exactly symmetric. -/
theorem agreementMatrix_diag_symm (events : List (List (String × ℚ))) :
    (∀ m : String, (∃ e ∈ events, (e.lookup m).isSome) →
        agreementEntry events m m = 100) ∧
      (∀ m1 m2 : String, agreementEntry events m1 m2 = agreementEntry events m2 m1) := by
  constructor
  · rintro m ⟨e, he, hsome⟩
    obtain ⟨p, hp⟩ := Option.isSome_iff_exists.mp hsome
    have hmem : (p, p) ∈ agreementPairs events m m := by
      simp only [agreementPairs, List.mem_filterMap]
      exact ⟨e, he, by simp [hp]⟩
    have hlen : (agreementPairs events m m).length ≠ 0 := by
      simpa [List.length_eq_zero] using List.ne_nil_of_mem hmem
    have hfilter : (agreementPairs events m m).filter
        (fun pr => binAttack pr.1 == binAttack pr.2) = agreementPairs events m m := by
      refine List.filter_eq_self.mpr (fun pr hpr => ?_)
      rw [agreementPairs_diag hpr]
      simp
    simp only [agreementEntry, hfilter, if_neg hlen]
    rw [div_self (by exact_mod_cast hlen)]
    decide
  · intro m1 m2
    have hswap := agreementPairs_swap events m1 m2
    simp only [agreementEntry, hswap, List.length_map, List.filter_map]
    have hcong : ∀ pr : ℚ × ℚ,
        ((fun pr : ℚ × ℚ => binAttack pr.1 == binAttack pr.2) ∘ Prod.swap) pr =
          (fun pr : ℚ × ℚ => binAttack pr.1 == binAttack pr.2) pr := by
      intro pr
      simp only [Function.comp_apply, Prod.swap]
      cases hb1 : binAttack pr.1 <;> cases hb2 : binAttack pr.2 <;> simp [hb1, hb2]
    rw [List.filter_congr (fun x _ => hcong x)]

/-- C6 witness: a model that reported on one event has diagonal entry
100; entries for a concrete pair agree both ways. -/
theorem agreementMatrix_diag_symm_witness :
    agreementEntry [[("rf", mkRat 7 10), ("svm", mkRat 2 5)]] "rf" "rf" = 100 :=
  (agreementMatrix_diag_symm [[("rf", mkRat 7 10), ("svm", mkRat 2 5)]]).1 "rf"
    ⟨[("rf", mkRat 7 10), ("svm", mkRat 2 5)], by decide, by decide⟩

/-- The `createdAt`-ascending comparison used by the ensemble query is
total. -/
instance : IsTotal EvEvent (fun a b => a.createdAt ≤ b.createdAt) :=
  ⟨fun a b => Nat.le_total a.createdAt b.createdAt⟩

/-- The `createdAt`-ascending comparison used by the ensemble query is
transitive. -/
instance : IsTrans EvEvent (fun a b => a.createdAt ≤ b.createdAt) :=
  ⟨fun _ _ _ => Nat.le_trans⟩

/-- Every listed value is bounded by the JS maximum of the list. -/
lemma le_jsMax {l : List ℚ} {x : ℚ} (hx : x ∈ l) : (↑x : WithBot ℚ) ≤ jsMax l := by
  induction l with
  | nil => cases hx
  | cons a t ih =>
    rcases List.mem_cons.mp hx with rfl | hx'
    · exact le_max_left _ _
    · exact le_trans (ih hx') (le_max_right _ _)

/-- The 51-event store exhibiting the selection window of
`getEnsembleVsBestModel`: createdAt `0..50`, the oldest event carrying
an empty (but present) `modelProbabilities` map. -/
def ensembleRaceStore : List EvEvent :=
  (List.range 51).map (fun k =>
    ⟨k, mkRat 1 2, if k = 0 then some [] else some [("m", mkRat 1 2)]⟩)

/-- C7 counterexample: on a 51-event store the endpoint's output is not
what the claim describes — the code keeps the EARLIEST 50 events
(`sort createdAt ascending`, then `limit 50`), not the most recent 50,
and an event whose `modelProbabilities` map is present but empty gets
`-Infinity` (an empty object is truthy, so `Math.max()` of no values),
not 0. -/
theorem ensembleVsBest_counterexample :
    getEnsembleVsBestModel ensembleRaceStore ≠ specEnsembleVsBest ensembleRaceStore ∧
      (getEnsembleVsBestModel ensembleRaceStore).head? =
        some (1, 50, (⊥ : WithBot ℚ)) := by
  decide

/-- C7 (amended): the output rows carry 1-based consecutive indices
over the selected window; the query's order is `createdAt` ascending
and the 50-event window keeps the EARLIEST events (everything selected
is no newer than anything dropped); a present-but-empty map yields `⊥`
(JS `-Infinity`), not 0; and each event's best-model value bounds every
individual model value recorded for it. -/
theorem ensembleVsBest_amended (store : List EvEvent) :
    ((getEnsembleVsBestModel store).map Prod.fst =
        List.range' 1 ((ensembleSorted store).take 50).length) ∧
      List.Sorted (fun a b : EvEvent => a.createdAt ≤ b.createdAt) (ensembleSorted store) ∧
      (∀ a ∈ (ensembleSorted store).take 50, ∀ b ∈ (ensembleSorted store).drop 50,
        a.createdAt ≤ b.createdAt) ∧
      bestOf (some []) = ⊥ ∧
      (∀ l : List (String × ℚ), ∀ mp ∈ l, (↑mp.2 : WithBot ℚ) ≤ bestOf (some l)) := by
  refine ⟨?_, ?_, ?_, rfl, ?_⟩
  · simp only [getEnsembleVsBestModel, ensembleRow, List.map_map]
    have : (Prod.fst ∘ fun p : ℕ × EvEvent =>
        ((p.1 + 1 : ℕ), round2 (p.2.confidence * 100),
          (bestOf p.2.modelProbabilities).map (fun q => round2 (q * 100)))) =
        (fun p : ℕ × EvEvent => p.1 + 1) := rfl
    rw [this]
    generalize (ensembleSorted store).take 50 = sel
    have h1 : sel.enum.map (fun p => p.1 + 1) =
        (sel.enum.map Prod.fst).map (fun x => x + 1) := by
      rw [List.map_map]; rfl
    rw [h1, List.enum_map_fst, List.range'_eq_map_range]
    exact List.map_congr_left (fun x _ => Nat.add_comm x 1)
  · exact List.sorted_insertionSort _ _
  · intro a ha b hb
    have hsorted : List.Sorted (fun a b : EvEvent => a.createdAt ≤ b.createdAt)
        (ensembleSorted store) := List.sorted_insertionSort _ _
    have hpw := hsorted
    rw [List.Sorted, ← List.take_append_drop 50 (ensembleSorted store),
      List.pairwise_append] at hpw
    exact hpw.2.2 a ha b hb
  · intro l mp hmp
    exact le_jsMax (List.mem_map_of_mem Prod.snd hmp)

/-- C7 witness: the amended theorem applied at the concrete store. -/
theorem ensembleVsBest_amended_witness :
    bestOf (some []) = ⊥ :=
  (ensembleVsBest_amended ensembleRaceStore).2.2.2.1

/-- `find?` only depends on the predicate's values on the list's
members. -/
lemma find?_congr_mem {α : Type} {p q : α → Bool} :
    ∀ {l : List α}, (∀ x ∈ l, p x = q x) → l.find? p = l.find? q
  | [], _ => rfl
  | a :: l, h => by
    simp only [List.find?_cons]
    rw [h a (List.mem_cons_self a l)]
    cases q a
    · exact find?_congr_mem (fun x hx => h x (List.mem_cons_of_mem a hx))
    · rfl

/-- Every non-empty probability map has an entry whose value bounds all
values. -/
lemma exists_max_entry : ∀ (l : List (String × ℚ)), l ≠ [] →
    ∃ x ∈ l, ∀ z ∈ l, z.2 ≤ x.2
  | [], h => absurd rfl h
  | kv :: tl, _ => by
    by_cases htl : tl = []
    · subst htl
      exact ⟨kv, List.mem_singleton_self kv, by simp⟩
    · obtain ⟨x, hx, hmax⟩ := exists_max_entry tl htl
      by_cases hle : x.2 ≤ kv.2
      · refine ⟨kv, List.mem_cons_self _ _, fun z hz => ?_⟩
        rcases List.mem_cons.mp hz with rfl | hz'
        · exact le_refl _
        · exact le_trans (hmax z hz') hle
      · refine ⟨x, List.mem_cons_of_mem _ hx, fun z hz => ?_⟩
        rcases List.mem_cons.mp hz with rfl | hz'
        · exact le_of_not_le hle
        · exact hmax z hz'

/-- The dominance fold, started at a live accumulator `(m, v)`, lands
on the first entry that carries the maximum value of the remaining
entries and strictly beats `v` — or stays at the accumulator when no
entry does. -/
lemma foldl_domStep_eq (tl : List (String × ℚ)) :
    ∀ (m : String) (v : ℚ),
      List.foldl domStep (some m, v) tl =
        ((tl.find? (fun kv => tl.all (fun z => z.2 ≤ kv.2) && decide (v < kv.2))).map
          (fun kv => ((some kv.1 : Option String), kv.2))).getD (some m, v) := by
  induction tl with
  | nil => intro m v; rfl
  | cons kv tl ih =>
    intro m v
    rw [List.foldl_cons]
    by_cases hv : v < kv.2
    · have hstep : domStep (some m, v) kv = (some kv.1, kv.2) := by
        simp [domStep, hv]
      rw [hstep, ih kv.1 kv.2]
      by_cases hall : ∀ z ∈ tl, z.2 ≤ kv.2
      · have hfind1 : tl.find? (fun x => tl.all (fun z => z.2 ≤ x.2) && decide (kv.2 < x.2))
            = none := by
          rw [List.find?_eq_none]
          intro x hx
          simp only [Bool.and_eq_true, decide_eq_true_eq, not_and]
          intro _ hlt
          exact absurd (hall x hx) (not_le.mpr hlt)
        have hhead : (((kv :: tl).all (fun z => z.2 ≤ kv.2) && decide (v < kv.2)) : Bool) = true := by
          simp only [Bool.and_eq_true, decide_eq_true_eq, List.all_eq_true]
          refine ⟨fun z hz => ?_, hv⟩
          rcases List.mem_cons.mp hz with rfl | hz'
          · exact le_refl _
          · exact hall z hz'
        have hfc : List.find?
            (fun x => ((kv :: tl).all (fun z => z.2 ≤ x.2) && decide (v < x.2))) (kv :: tl) =
              some kv := List.find?_cons_of_pos _ hhead
        rw [hfind1, hfc]
        rfl
      · push_neg at hall
        obtain ⟨y, hy, hylt⟩ := hall
        have hhead : (((kv :: tl).all (fun z => z.2 ≤ kv.2) && decide (v < kv.2)) : Bool) = false := by
          simp only [Bool.and_eq_false_iff, List.all_eq_false]
          left
          exact ⟨y, List.mem_cons_of_mem _ hy, by simp [not_le.mpr hylt]⟩
        have hfc : List.find?
            (fun x => ((kv :: tl).all (fun z => z.2 ≤ x.2) && decide (v < x.2))) (kv :: tl) =
              List.find?
                (fun x => ((kv :: tl).all (fun z => z.2 ≤ x.2) && decide (v < x.2))) tl :=
          List.find?_cons_of_neg _ (by simp only [hhead]; exact Bool.false_ne_true)
        rw [hfc]
        have hcong : ∀ x ∈ tl,
            ((tl.all (fun z => z.2 ≤ x.2) && decide (kv.2 < x.2)) : Bool) =
              ((kv :: tl).all (fun z => z.2 ≤ x.2) && decide (v < x.2)) := by
          intro x hx
          by_cases hallx : ∀ z ∈ tl, z.2 ≤ x.2
          · have h1 : kv.2 < x.2 := lt_of_lt_of_le hylt (hallx y hy)
            have h2 : v < x.2 := lt_trans hv h1
            simp [List.all_eq_true, hallx, h1, h2, le_of_lt h1]
          · push_neg at hallx
            obtain ⟨z, hz, hzgt⟩ := hallx
            have h1 : (tl.all (fun w => w.2 ≤ x.2) : Bool) = false := by
              simp only [List.all_eq_false]
              exact ⟨z, hz, by simp [hzgt]⟩
            have h2 : ((kv :: tl).all (fun w => w.2 ≤ x.2) : Bool) = false := by
              simp only [List.all_eq_false]
              exact ⟨z, List.mem_cons_of_mem _ hz, by simp [hzgt]⟩
            simp [h1, h2]
        rw [find?_congr_mem hcong]
        have hex : ∃ x, x ∈ tl ∧
            (((kv :: tl).all (fun z => z.2 ≤ x.2) && decide (v < x.2)) : Bool) = true := by
          have htlne : tl ≠ [] := List.ne_nil_of_mem hy
          obtain ⟨x, hx, hmax⟩ := exists_max_entry tl htlne
          have h1 : kv.2 < x.2 := lt_of_lt_of_le hylt (hmax y hy)
          refine ⟨x, hx, ?_⟩
          simp only [Bool.and_eq_true, decide_eq_true_eq, List.all_eq_true]
          refine ⟨fun z hz => ?_, lt_trans hv h1⟩
          rcases List.mem_cons.mp hz with rfl | hz'
          · exact le_of_lt h1
          · exact hmax z hz'
        obtain ⟨w, hw⟩ := Option.isSome_iff_exists.mp (List.find?_isSome.mpr hex)
        rw [hw]
        rfl
    · have hstep : domStep (some m, v) kv = (some m, v) := by
        simp [domStep, hv]
      rw [hstep, ih m v]
      have hhead : (((kv :: tl).all (fun z => z.2 ≤ kv.2) && decide (v < kv.2)) : Bool) = false := by
        simp [hv]
      have hfc : List.find?
          (fun x => ((kv :: tl).all (fun z => z.2 ≤ x.2) && decide (v < x.2))) (kv :: tl) =
            List.find?
              (fun x => ((kv :: tl).all (fun z => z.2 ≤ x.2) && decide (v < x.2))) tl :=
        List.find?_cons_of_neg _ (by simp only [hhead]; exact Bool.false_ne_true)
      rw [hfc]
      have hcong : ∀ x ∈ tl,
          ((tl.all (fun z => z.2 ≤ x.2) && decide (v < x.2)) : Bool) =
            ((kv :: tl).all (fun z => z.2 ≤ x.2) && decide (v < x.2)) := by
        intro x hx
        by_cases hvx : v < x.2
        · have hk : kv.2 ≤ v := not_lt.mp hv
          by_cases hallx : ∀ z ∈ tl, z.2 ≤ x.2
          · simp [List.all_eq_true, hallx, hvx, le_trans hk (le_of_lt hvx)]
          · push_neg at hallx
            obtain ⟨z, hz, hzgt⟩ := hallx
            have h1 : (tl.all (fun w => w.2 ≤ x.2) : Bool) = false := by
              simp only [List.all_eq_false]
              exact ⟨z, hz, by simp [hzgt]⟩
            have h2 : ((kv :: tl).all (fun w => w.2 ≤ x.2) : Bool) = false := by
              simp only [List.all_eq_false]
              exact ⟨z, List.mem_cons_of_mem _ hz, by simp [hzgt]⟩
            simp [h1, h2]
        · simp [hvx]
      rw [find?_congr_mem hcong]

/-- For a non-empty map with non-negative values, the fold of
`getModelDominanceFrequency` selects exactly the first entry attaining
the maximum probability. -/
lemma dominantOf_fst_eq_specDominant (e : List (String × ℚ)) (hne : e ≠ [])
    (hpos : ∀ kv ∈ e, (0:ℚ) ≤ kv.2) :
    (dominantOf e).1 = specDominant e := by
  match e, hne with
  | kv :: tl, _ =>
    have h0 : domStep (none, (-1 : ℚ)) kv = (some kv.1, kv.2) := by
      have hlt : (-1 : ℚ) < kv.2 :=
        lt_of_lt_of_le (by norm_num) (hpos kv (List.mem_cons_self _ _))
      simp [domStep, hlt]
    rw [dominantOf, List.foldl_cons, h0, foldl_domStep_eq]
    unfold specDominant
    by_cases hall : ∀ z ∈ tl, z.2 ≤ kv.2
    · have hfind1 : tl.find? (fun x => tl.all (fun z => z.2 ≤ x.2) && decide (kv.2 < x.2))
          = none := by
        rw [List.find?_eq_none]
        intro x hx
        simp only [Bool.and_eq_true, decide_eq_true_eq, not_and]
        intro _ hlt
        exact absurd (hall x hx) (not_le.mpr hlt)
      have hhead : ((kv :: tl).all (fun z => z.2 ≤ kv.2) : Bool) = true := by
        simp only [List.all_eq_true, decide_eq_true_eq]
        intro z hz
        rcases List.mem_cons.mp hz with rfl | hz'
        · exact le_refl _
        · exact hall z hz'
      have hfc : List.find? (fun x => ((kv :: tl).all (fun z => z.2 ≤ x.2))) (kv :: tl) =
          some kv := List.find?_cons_of_pos _ hhead
      rw [hfind1, hfc]
      rfl
    · push_neg at hall
      obtain ⟨y, hy, hygt⟩ := hall
      have hhead : ((kv :: tl).all (fun z => z.2 ≤ kv.2) : Bool) = false := by
        simp only [List.all_eq_false]
        exact ⟨y, List.mem_cons_of_mem _ hy, by simp [not_le.mpr hygt]⟩
      have hfc : List.find? (fun x => ((kv :: tl).all (fun z => z.2 ≤ x.2))) (kv :: tl) =
          List.find? (fun x => ((kv :: tl).all (fun z => z.2 ≤ x.2))) tl :=
        List.find?_cons_of_neg _ (by simp only [hhead]; exact Bool.false_ne_true)
      rw [hfc]
      have hcong : ∀ x ∈ tl,
          ((tl.all (fun z => z.2 ≤ x.2) && decide (kv.2 < x.2)) : Bool) =
            ((kv :: tl).all (fun z => z.2 ≤ x.2)) := by
        intro x hx
        by_cases hallx : ∀ z ∈ tl, z.2 ≤ x.2
        · have h1 : kv.2 < x.2 := lt_of_lt_of_le hygt (hallx y hy)
          simp [List.all_eq_true, hallx, h1, le_of_lt h1]
        · push_neg at hallx
          obtain ⟨z, hz, hzgt⟩ := hallx
          have h1 : (tl.all (fun w => w.2 ≤ x.2) : Bool) = false := by
            simp only [List.all_eq_false]
            exact ⟨z, hz, by simp [hzgt]⟩
          have h2 : ((kv :: tl).all (fun w => w.2 ≤ x.2) : Bool) = false := by
            simp only [List.all_eq_false]
            exact ⟨z, List.mem_cons_of_mem _ hz, by simp [hzgt]⟩
          simp [h1, h2]
      rw [← find?_congr_mem hcong]
      have hex : ∃ x, x ∈ tl ∧
          ((tl.all (fun z => z.2 ≤ x.2) && decide (kv.2 < x.2)) : Bool) = true := by
        have htlne : tl ≠ [] := List.ne_nil_of_mem hy
        obtain ⟨x, hx, hmax⟩ := exists_max_entry tl htlne
        refine ⟨x, hx, ?_⟩
        simp only [Bool.and_eq_true, decide_eq_true_eq, List.all_eq_true]
        exact ⟨fun z hz => hmax z hz, lt_of_lt_of_le hygt (hmax y hy)⟩
      obtain ⟨w, hw⟩ := Option.isSome_iff_exists.mp (List.find?_isSome.mpr hex)
      rw [hw]
      rfl

/-- A `filterMap` whose function succeeds on every member keeps the
length. -/
lemma length_filterMap_of_isSome {α β : Type} :
    ∀ (l : List α) (f : α → Option β), (∀ x ∈ l, (f x).isSome) →
      (l.filterMap f).length = l.length
  | [], _, _ => rfl
  | a :: l, f, h => by
    obtain ⟨b, hb⟩ := Option.isSome_iff_exists.mp (h a (List.mem_cons_self a l))
    rw [List.filterMap_cons, hb, List.length_cons,
      length_filterMap_of_isSome l f (fun x hx => h x (List.mem_cons_of_mem a hx))]
    rfl

/-- The fold of `Object.keys` insertion order: starting from a
duplicate-free accumulator it stays duplicate-free and collects exactly
the accumulator's and the stream's elements. -/
lemma jsKeys_go (w : List String) :
    ∀ acc : List String, acc.Nodup →
      ((w.foldl (fun acc m => if m ∈ acc then acc else acc ++ [m]) acc).Nodup ∧
        ∀ m, m ∈ w.foldl (fun acc m => if m ∈ acc then acc else acc ++ [m]) acc ↔
          m ∈ acc ∨ m ∈ w) := by
  induction w with
  | nil =>
    intro acc hacc
    exact ⟨hacc, fun m => by simp⟩
  | cons a w ih =>
    intro acc hacc
    rw [List.foldl_cons]
    by_cases ha : a ∈ acc
    · simp only [if_pos ha]
      obtain ⟨h1, h2⟩ := ih acc hacc
      refine ⟨h1, fun m => ?_⟩
      rw [h2 m]
      constructor
      · rintro (hm | hm)
        · exact Or.inl hm
        · exact Or.inr (List.mem_cons_of_mem a hm)
      · rintro (hm | hm)
        · exact Or.inl hm
        · rcases List.mem_cons.mp hm with rfl | hm'
          · exact Or.inl ha
          · exact Or.inr hm'
    · simp only [if_neg ha]
      have hacc' : (acc ++ [a]).Nodup := by
        rw [List.nodup_append]
        exact ⟨hacc, List.nodup_singleton a, fun x hx hxa => ha ((List.mem_singleton.mp hxa) ▸ hx)⟩
      obtain ⟨h1, h2⟩ := ih (acc ++ [a]) hacc'
      refine ⟨h1, fun m => ?_⟩
      rw [h2 m]
      simp only [List.mem_append, List.mem_singleton, List.mem_cons]
      tauto

/-- JS `toFixed(2)` rounding moves a value by at most `1/200`. -/
lemma abs_round2_sub (x : ℚ) : |round2 x - x| ≤ 1/200 := by
  unfold round2
  have h : |((round (x * 100) : ℤ) : ℚ) - x * 100| ≤ 1/2 := by
    have h0 := abs_sub_round (x * 100)
    rwa [abs_sub_comm] at h0
  have heq : ((round (x * 100) : ℤ) : ℚ) / 100 - x =
      (((round (x * 100) : ℤ) : ℚ) - x * 100) / 100 := by ring
  rw [heq, abs_div]
  have h100 : |(100 : ℚ)| = 100 := by norm_num
  rw [h100]
  linarith

/-- A non-empty map with non-negative values always yields a winner. -/
lemma dominantOf_fst_isSome (e : List (String × ℚ)) (hne : e ≠ [])
    (hpos : ∀ kv ∈ e, (0:ℚ) ≤ kv.2) : ((dominantOf e).1).isSome := by
  rw [dominantOf_fst_eq_specDominant e hne hpos]
  unfold specDominant
  obtain ⟨x, hx, hmax⟩ := exists_max_entry e hne
  have hS : (e.find? (fun kv => e.all (fun z => z.2 ≤ kv.2))).isSome :=
    List.find?_isSome.mpr ⟨x, hx, by
      simp only [List.all_eq_true, decide_eq_true_eq]
      exact hmax⟩
  obtain ⟨v, hv⟩ := Option.isSome_iff_exists.mp hS
  rw [hv]
  rfl

/-- Over any non-empty winner stream, the two-decimal percentages of
`getModelDominanceFrequency` sum to 100 up to the rounding of each
percentage. -/
lemma percent_sum_bound (w : List String) (hW : w ≠ []) :
    |(((jsKeys w).map (fun m => round2 ((w.count m : ℚ) / (w.length : ℚ) * 100))).sum - 100)| ≤
      (((jsKeys w).length : ℚ)) / 200 := by
  obtain ⟨hKnodup0, hKmem0⟩ := jsKeys_go w [] List.nodup_nil
  have hKnodup : (jsKeys w).Nodup := hKnodup0
  have hKmem : ∀ m, m ∈ jsKeys w ↔ m ∈ w := fun m => by
    simpa using hKmem0 m
  have hlen : w.length ≠ 0 := fun h => hW (List.length_eq_zero.mp h)
  have hlenQ : ((w.length : ℚ)) ≠ 0 := Nat.cast_ne_zero.mpr hlen
  have hKfin : (jsKeys w).toFinset = w.toFinset :=
    Finset.ext fun m => by simp [List.mem_toFinset, hKmem m]
  have hcount : ∑ m in w.toFinset, ((w.count m : ℚ)) = (w.length : ℚ) := by
    rw [← Nat.cast_sum, List.sum_toFinset_count_eq_length w]
  have hgsum : ∑ m in w.toFinset, (w.count m : ℚ) / (w.length : ℚ) * 100 = 100 := by
    calc ∑ m in w.toFinset, (w.count m : ℚ) / (w.length : ℚ) * 100
        = ∑ m in w.toFinset, (w.count m : ℚ) * (100 / (w.length : ℚ)) := by
          refine Finset.sum_congr rfl (fun m _ => ?_)
          ring
      _ = (∑ m in w.toFinset, (w.count m : ℚ)) * (100 / (w.length : ℚ)) :=
          (Finset.sum_mul _ _ _).symm
      _ = (w.length : ℚ) * (100 / (w.length : ℚ)) := by rw [hcount]
      _ = 100 := by field_simp
  have hfin : ((jsKeys w).map
      (fun m => round2 ((w.count m : ℚ) / (w.length : ℚ) * 100))).sum =
        ∑ m in (jsKeys w).toFinset, round2 ((w.count m : ℚ) / (w.length : ℚ) * 100) :=
    (List.sum_toFinset _ hKnodup).symm
  rw [hfin, hKfin]
  calc |(∑ m in w.toFinset, round2 ((w.count m : ℚ) / (w.length : ℚ) * 100)) - 100|
      = |∑ m in w.toFinset,
          (round2 ((w.count m : ℚ) / (w.length : ℚ) * 100) -
            (w.count m : ℚ) / (w.length : ℚ) * 100)| := by
        rw [Finset.sum_sub_distrib, hgsum]
    _ ≤ ∑ m in w.toFinset,
          |round2 ((w.count m : ℚ) / (w.length : ℚ) * 100) -
            (w.count m : ℚ) / (w.length : ℚ) * 100| :=
        Finset.abs_sum_le_sum_abs _ _
    _ ≤ ∑ _m in w.toFinset, (1/200 : ℚ) :=
        Finset.sum_le_sum (fun m _ => abs_round2_sub _)
    _ = (w.toFinset.card : ℚ) * (1/200) := by
        rw [Finset.sum_const, nsmul_eq_mul]
    _ = (((jsKeys w).length : ℚ)) / 200 := by
        rw [← hKfin, List.toFinset_card_of_nodup hKnodup]
        ring

/-- C8: `getModelDominanceFrequency` excludes events with an empty
`modelProbabilities` map from both numerator and denominator (every
qualifying — non-empty — event contributes exactly one winner, so the
denominator equals the number of non-empty events); the winner of each
qualifying event is the first entry attaining the maximum probability;
and the reported two-decimal percentages sum to 100 up to the rounding
of each percentage (at most 1/200 each). -/
theorem dominance_spec (events : List (List (String × ℚ)))
    (hpos : ∀ e ∈ events, ∀ kv ∈ e, (0:ℚ) ≤ kv.2) :
    (dominanceWinners events).length = (events.filter (fun e => e ≠ [])).length ∧
      (∀ e ∈ events, e ≠ [] → (dominantOf e).1 = specDominant e) ∧
      (dominanceWinners events ≠ [] →
        |((dominanceResult events).map Prod.snd).sum - 100| ≤
          ((dominanceResult events).length : ℚ) / 200) := by
  refine ⟨?_, ?_, ?_⟩
  · unfold dominanceWinners
    apply length_filterMap_of_isSome
    intro e he
    rw [List.mem_filter] at he
    obtain ⟨he1, he2⟩ := he
    exact dominantOf_fst_isSome e (by simpa using he2) (hpos e he1)
  · intro e he hne
    exact dominantOf_fst_eq_specDominant e hne (hpos e he)
  · intro hW
    have hmapmap : (dominanceResult events).map Prod.snd =
        (jsKeys (dominanceWinners events)).map
          (fun m => round2 (((dominanceWinners events).count m : ℚ) /
            ((dominanceWinners events).length : ℚ) * 100)) := by
      rw [dominanceResult, List.map_map]
      rfl
    have hlength : (dominanceResult events).length =
        (jsKeys (dominanceWinners events)).length := by
      rw [dominanceResult]
      exact List.length_map _ _
    rw [hmapmap, hlength]
    exact percent_sum_bound (dominanceWinners events) hW

/-- C8 witness: the theorem applied at a concrete store containing an
empty-map event. -/
theorem dominance_spec_witness :
    (dominanceWinners [[("rf", mkRat 7 10)], [],
        [("rf", mkRat 3 10), ("svm", mkRat 3 10)]]).length =
      (([[("rf", mkRat 7 10)], [], [("rf", mkRat 3 10), ("svm", mkRat 3 10)]] :
          List (List (String × ℚ))).filter (fun e => e ≠ [])).length :=
  (dominance_spec _ (by decide)).1
